import Mathlib

/-!
Shallow embedding of the `webserv` repository (message queue in
`src/messagequeue.rs`, parser combinators in `src/lib/parser.rs`, HTTP/1.1
decoder in `src/http.rs`), together with theorems checking the
natural-language specification against the code.

Machine integers (`usize`) are modelled by `Nat`; bytes by `Nat`
(`b' '` = 32, `b'\r'` = 13, `b'\n'` = 10, `b':'` = 58).  A Rust panic
(out-of-bounds slice index or debug-mode integer underflow) is modelled by
an explicit `Option.none` result.
-/

namespace MsgQ

/-- Error enum from `src/messagequeue.rs` (`MessageQueueError`).  The
`NixError` payload is environment-specific and carried no data we need. -/
inductive MessageQueueError
  | UnvalidSize
  | MemoryAllocationFailed
  | MessageQueueFull
  | MessageQueueEmpty
  | NixError
  deriving DecidableEq, Repr

/-- State of `MessageQueueInternal<T>`: capacity `len`, the two indices and
the backing store.  The `mmap`-ed backing store is a plain slot map
`Nat → α`; slots are "uninitialised" (the model fills them with `default`,
mirroring the zero-filled anonymous mapping). -/
structure MQ (α : Type) where
  len : Nat
  wptr : Nat
  rptr : Nat
  store : Nat → α

variable {α : Type}

/-- `MessageQueueInternal::dist` (src/messagequeue.rs:62-70). -/
def MQ.dist (q : MQ α) : Nat :=
  if q.wptr < q.rptr then q.len + q.wptr - q.rptr
  else q.wptr - q.rptr

/-- `MessageQueueSender::new` (src/messagequeue.rs:79-94).  The backing
store allocation is modelled as always succeeding. -/
def MQnew (α : Type) [Inhabited α] (numElements : Nat) :
    Except MessageQueueError (MQ α) :=
  if numElements < 2 then .error .UnvalidSize
  else .ok { len := numElements, wptr := 0, rptr := 0, store := fun _ => default }

/-- `MessageQueueSender::send` (src/messagequeue.rs:97-108).  Rust mutates
`&mut self` and returns `Result<(), _>`; the model returns the result
together with the post state (the early `QueueFull` return leaves the
state untouched). -/
def MQ.send (q : MQ α) (v : α) : Except MessageQueueError Unit × MQ α :=
  if q.dist = q.len - 1 then (.error .MessageQueueFull, q)
  else (.ok (),
    { q with
      store := fun i => if i = q.wptr then v else q.store i,
      wptr := (q.wptr + 1) % q.len })

/-- `MessageQueueReader::available` (src/messagequeue.rs:118-120). -/
def MQ.available (q : MQ α) : Nat := q.dist

/-- `MessageQueueReader::is_ready` (src/messagequeue.rs:122-124). -/
def MQ.isReady (q : MQ α) : Bool := q.dist > 0

/-- `MessageQueueReader::read` (src/messagequeue.rs:137-143), inlining
`get_current_val` (128-135). -/
def MQ.read (q : MQ α) : Option α × MQ α :=
  if q.isReady then
    (some (q.store q.rptr), { q with rptr := (q.rptr + 1) % q.len })
  else (none, q)

/-- One operation of a single-producer / single-consumer run. -/
inductive MQOp (α : Type)
  | send (v : α)
  | read

/-- Outcome of a run: final queue state, values accepted by successful
`send`s (in order) and values returned by successful `read`s (in order). -/
structure RunOut (α : Type) where
  q : MQ α
  sent : List α
  got : List α

/-- Execute a list of operations sequentially (an interleaving-free
single-producer / single-consumer run). -/
def MQ.runOps (q : MQ α) : List (MQOp α) → RunOut α
  | [] => ⟨q, [], []⟩
  | .send v :: ops =>
    let r := q.send v
    let out := r.2.runOps ops
    match r.1 with
    | .ok _ => ⟨out.q, v :: out.sent, out.got⟩
    | .error _ => ⟨out.q, out.sent, out.got⟩
  | .read :: ops =>
    let r := q.read
    let out := r.2.runOps ops
    match r.1 with
    | some v => ⟨out.q, out.sent, v :: out.got⟩
    | none => ⟨out.q, out.sent, out.got⟩

/-- The structural invariant every queue obtained from `MQnew` maintains:
capacity at least 2 and both indices reduced modulo the capacity. -/
def MQ.Inv (q : MQ α) : Prop :=
  2 ≤ q.len ∧ q.wptr < q.len ∧ q.rptr < q.len

/-- Ghost abstraction: the values currently stored between the read and the
write index, oldest first. -/
def MQ.pending (q : MQ α) : List α :=
  (List.range q.dist).map fun i => q.store ((q.rptr + i) % q.len)

lemma mod_two_cases (a n : Nat) (h : a < 2 * n) (_hn : 0 < n) :
    a % n = if a < n then a else a - n := by
  split
  · exact Nat.mod_eq_of_lt ‹_›
  · rw [Nat.mod_eq_sub_mod (by omega)]
    exact Nat.mod_eq_of_lt (by omega)

lemma MQ.dist_def (q : MQ α) :
    q.dist = if q.wptr < q.rptr then q.len + q.wptr - q.rptr
      else q.wptr - q.rptr := rfl

lemma MQ.dist_lt (q : MQ α) (h : q.Inv) : q.dist < q.len := by
  obtain ⟨h1, h2, h3⟩ := h
  rw [MQ.dist_def]
  split <;> omega

lemma MQ.write_slot (q : MQ α) (h : q.Inv) :
    (q.rptr + q.dist) % q.len = q.wptr := by
  obtain ⟨h1, h2, h3⟩ := h
  rw [MQ.dist_def]
  split
  · rw [mod_two_cases _ _ (by omega) (by omega)]
    split <;> omega
  · rw [mod_two_cases _ _ (by omega) (by omega)]
    split <;> omega

lemma MQ.pending_slot_ne (q : MQ α) (h : q.Inv) (i : Nat) (hi : i < q.dist) :
    (q.rptr + i) % q.len ≠ q.wptr := by
  obtain ⟨h1, h2, h3⟩ := h
  rw [MQ.dist_def] at hi
  revert hi
  split <;> intro hi <;>
    rw [mod_two_cases _ _ (by omega) (by omega)] <;> split <;> omega

lemma MQ.send_full (q : MQ α) (v : α) (h : q.dist = q.len - 1) :
    q.send v = (.error .MessageQueueFull, q) := by
  simp [MQ.send, h]

lemma MQ.send_ok (q : MQ α) (v : α) (hInv : q.Inv) (h : q.dist ≠ q.len - 1) :
    (q.send v).1 = .ok () ∧ (q.send v).2.Inv ∧ (q.send v).2.len = q.len ∧
      (q.send v).2.dist = q.dist + 1 ∧
      (q.send v).2.pending = q.pending ++ [v] := by
  obtain ⟨h1, h2, h3⟩ := hInv
  have hd : q.dist < q.len := q.dist_lt ⟨h1, h2, h3⟩
  have hq : q.send v = (.ok (),
      MQ.mk q.len ((q.wptr + 1) % q.len) q.rptr
        (fun i => if i = q.wptr then v else q.store i)) := by
    simp [MQ.send, h]
  have hw : (q.wptr + 1) % q.len
      = if q.wptr + 1 < q.len then q.wptr + 1 else 0 := by
    rw [mod_two_cases _ _ (by omega) (by omega)]
    split <;> omega
  rw [hq]
  have hwlt : (q.wptr + 1) % q.len < q.len := by
    rw [hw]; split <;> omega
  have hdist : (MQ.mk q.len ((q.wptr + 1) % q.len) q.rptr
      (fun i => if i = q.wptr then v else q.store i)).dist = q.dist + 1 := by
    show (if (q.wptr + 1) % q.len < q.rptr
        then q.len + (q.wptr + 1) % q.len - q.rptr
        else (q.wptr + 1) % q.len - q.rptr) = q.dist + 1
    rw [MQ.dist_def] at h
    rw [MQ.dist_def, hw]
    revert h
    split_ifs <;> intro h <;> omega
  refine ⟨rfl, ⟨h1, hwlt, h3⟩, rfl, hdist, ?_⟩
  show (List.range (MQ.mk q.len ((q.wptr + 1) % q.len) q.rptr
      (fun i => if i = q.wptr then v else q.store i)).dist).map _ = _
  rw [hdist, List.range_succ, List.map_append]
  congr 1
  · exact List.map_congr_left fun i hi => by
      rw [List.mem_range] at hi
      show (if (q.rptr + i) % q.len = q.wptr then v
          else q.store ((q.rptr + i) % q.len)) = _
      rw [if_neg (q.pending_slot_ne ⟨h1, h2, h3⟩ i hi)]
  · show [if (q.rptr + q.dist) % q.len = q.wptr then v
        else q.store ((q.rptr + q.dist) % q.len)] = [v]
    rw [q.write_slot ⟨h1, h2, h3⟩, if_pos rfl]

lemma MQ.read_empty (q : MQ α) (h : q.dist = 0) : q.read = (none, q) := by
  simp [MQ.read, MQ.isReady, h]

lemma MQ.read_ok (q : MQ α) (hInv : q.Inv) (h : q.dist ≠ 0) :
    (q.read).1 = some (q.store q.rptr) ∧ (q.read).2.Inv ∧
      (q.read).2.len = q.len ∧ (q.read).2.dist = q.dist - 1 ∧
      q.pending = q.store q.rptr :: (q.read).2.pending := by
  obtain ⟨h1, h2, h3⟩ := hInv
  have hready : q.isReady = true := by
    simp [MQ.isReady]
    omega
  have hq : q.read = (some (q.store q.rptr),
      MQ.mk q.len q.wptr ((q.rptr + 1) % q.len) q.store) := by
    simp [MQ.read, hready]
  have hr : (q.rptr + 1) % q.len
      = if q.rptr + 1 < q.len then q.rptr + 1 else 0 := by
    rw [mod_two_cases _ _ (by omega) (by omega)]
    split <;> omega
  have hrlt : (q.rptr + 1) % q.len < q.len := by
    rw [hr]; split <;> omega
  rw [hq]
  have hdist : (MQ.mk q.len q.wptr ((q.rptr + 1) % q.len) q.store).dist
      = q.dist - 1 := by
    show (if q.wptr < (q.rptr + 1) % q.len
        then q.len + q.wptr - (q.rptr + 1) % q.len
        else q.wptr - (q.rptr + 1) % q.len) = q.dist - 1
    rw [MQ.dist_def] at h
    rw [MQ.dist_def, hr]
    revert h
    split_ifs <;> intro h <;> omega
  refine ⟨rfl, ⟨h1, h2, hrlt⟩, rfl, hdist, ?_⟩
  show q.pending = q.store q.rptr ::
    (List.range (MQ.mk q.len q.wptr ((q.rptr + 1) % q.len) q.store).dist).map _
  rw [hdist]
  unfold MQ.pending
  obtain ⟨d, hdd⟩ : ∃ d, q.dist = d + 1 := ⟨q.dist - 1, by omega⟩
  rw [hdd]
  simp only [Nat.add_sub_cancel]
  rw [List.range_succ_eq_map, List.map_cons, List.map_map]
  congr 1
  · rw [Nat.add_zero, Nat.mod_eq_of_lt h3]
  · exact List.map_congr_left fun i _ => by
      show q.store ((q.rptr + Nat.succ i) % q.len)
        = q.store (((q.rptr + 1) % q.len + i) % q.len)
      rw [Nat.mod_add_mod]
      have : q.rptr + Nat.succ i = q.rptr + 1 + i := by omega
      rw [this]

/-- Main run invariant: `Inv` is preserved, the capacity never changes, and
the values read so far followed by the values still pending are exactly the
initially-pending values followed by the values sent so far. -/
lemma MQ.runOps_spec (ops : List (MQOp α)) : ∀ q : MQ α, q.Inv →
    (q.runOps ops).q.Inv ∧ (q.runOps ops).q.len = q.len ∧
      (q.runOps ops).got ++ (q.runOps ops).q.pending
        = q.pending ++ (q.runOps ops).sent := by
  induction ops with
  | nil => intro q hq; exact ⟨hq, rfl, by simp [MQ.runOps]⟩
  | cons op ops ih =>
    intro q hq
    cases op with
    | send v =>
      by_cases hfull : q.dist = q.len - 1
      · have hs := q.send_full v hfull
        obtain ⟨ih1, ih2, ih3⟩ := ih q hq
        simp only [MQ.runOps, hs]
        exact ⟨ih1, ih2, ih3⟩
      · obtain ⟨hok, hInv, hlen, _, hpend⟩ := q.send_ok v hq hfull
        obtain ⟨ih1, ih2, ih3⟩ := ih (q.send v).2 hInv
        simp only [MQ.runOps]
        rw [hok]
        refine ⟨ih1, by rw [ih2, hlen], ?_⟩
        simp only []
        rw [ih3, hpend]
        simp
    | read =>
      by_cases hempty : q.dist = 0
      · have hs := q.read_empty hempty
        obtain ⟨ih1, ih2, ih3⟩ := ih q hq
        simp only [MQ.runOps, hs]
        exact ⟨ih1, ih2, ih3⟩
      · obtain ⟨hval, hInv, hlen, _, hpend⟩ := q.read_ok hq hempty
        obtain ⟨ih1, ih2, ih3⟩ := ih (q.read).2 hInv
        simp only [MQ.runOps]
        rw [hval]
        refine ⟨ih1, by rw [ih2, hlen], ?_⟩
        simp only [List.cons_append]
        rw [ih3, hpend]
        simp

/-- The state `MessageQueueSender::new` constructs on success. -/
def freshMQ (α : Type) [Inhabited α] (C : Nat) : MQ α :=
  { len := C, wptr := 0, rptr := 0, store := fun _ => default }

lemma MQnew_inv {α : Type} [Inhabited α] {C : Nat} {q : MQ α}
    (h : MQnew α C = .ok q) :
    q.Inv ∧ q.len = C ∧ q.pending = [] ∧ q.dist = 0 := by
  unfold MQnew at h
  split at h
  · exact absurd h (by simp)
  · cases h
    have hdist : (MQ.mk C 0 0 (fun _ => (default : α))).dist = 0 := by
      rw [MQ.dist_def]
      simp
    refine ⟨⟨by show 2 ≤ C; omega, by show 0 < C; omega, by show 0 < C; omega⟩,
      rfl, ?_, hdist⟩
    unfold MQ.pending
    rw [hdist]
    simp

lemma int_dist (q : MQ α) (hInv : q.Inv) :
    ((q.wptr : Int) - (q.rptr : Int)) % (q.len : Int) = (q.dist : Int) := by
  obtain ⟨h1, h2, h3⟩ := hInv
  rw [MQ.dist_def]
  split
  · have hrw := Int.add_mul_emod_self_left
      (a := (q.wptr : Int) - (q.rptr : Int)) (b := (q.len : Int)) (c := 1)
    rw [mul_one] at hrw
    rw [← hrw, Int.emod_eq_of_lt (by omega) (by omega)]
    omega
  · rw [Int.emod_eq_of_lt (by omega) (by omega)]
    omega

lemma sent_length_le (ops : List (MQOp α)) (q : MQ α) (hInv : q.Inv)
    (h0 : q.pending = []) :
    (q.runOps ops).got.length + (q.runOps ops).q.pending.length
      = (q.runOps ops).sent.length := by
  obtain ⟨_, _, h3⟩ := MQ.runOps_spec ops q hInv
  rw [h0] at h3
  simp only [List.nil_append] at h3
  have := congrArg List.length h3
  simpa using this

lemma pending_length (q : MQ α) : q.pending.length = q.dist := by
  unfold MQ.pending
  simp

/-- State reached by `k` consecutive sends on a queue whose indices are
`(j, 0)`, when the capacity is never exceeded: all of them succeed. -/
lemma runOps_replicate_send (C : Nat) (hC : 2 ≤ C) (w : α) :
    ∀ (k j : Nat) (s : Nat → α), j + k ≤ C - 1 →
      ((MQ.mk C j 0 s).runOps (List.replicate k (.send w))).q.wptr = j + k ∧
      ((MQ.mk C j 0 s).runOps (List.replicate k (.send w))).q.rptr = 0 ∧
      ((MQ.mk C j 0 s).runOps (List.replicate k (.send w))).q.len = C ∧
      ((MQ.mk C j 0 s).runOps (List.replicate k (.send w))).sent.length = k := by
  intro k
  induction k with
  | zero =>
    intro j s _
    simp [MQ.runOps, List.replicate]
  | succ k ih =>
    intro j s hj
    have hdist : (MQ.mk C j 0 s).dist = j := by
      rw [MQ.dist_def]
      simp
    have hmod : (j + 1) % C = j + 1 := Nat.mod_eq_of_lt (by omega)
    have hsend : (MQ.mk C j 0 s).send w
        = (.ok (), MQ.mk C (j + 1) 0 (fun i => if i = j then w else s i)) := by
      unfold MQ.send
      dsimp only
      rw [hdist, if_neg (by omega), hmod]
    rw [List.replicate_succ]
    simp only [MQ.runOps, hsend]
    obtain ⟨ih1, ih2, ih3, ih4⟩ :=
      ih (j + 1) (fun i => if i = j then w else s i) (by omega)
    refine ⟨by rw [ih1]; omega, ih2, ih3, ?_⟩
    simp [ih4]

/-- Claim C1: in every single-producer / single-consumer run, the values
returned by successive successful `read()`s are exactly the values passed
to successful `send()`s, in FIFO order (the reads form the corresponding
prefix of the sends, and reads plus still-queued values are exactly the
sends). -/
theorem c1_fifo_order (α : Type) [Inhabited α] (C : Nat) (q₀ : MQ α)
    (h : MQnew α C = .ok q₀) (ops : List (MQOp α)) :
    (q₀.runOps ops).got
      = (q₀.runOps ops).sent.take (q₀.runOps ops).got.length ∧
    (q₀.runOps ops).got ++ (q₀.runOps ops).q.pending = (q₀.runOps ops).sent := by
  obtain ⟨hInv, _, hpend, _⟩ := MQnew_inv h
  obtain ⟨_, _, h3⟩ := MQ.runOps_spec ops q₀ hInv
  rw [hpend] at h3
  simp only [List.nil_append] at h3
  refine ⟨?_, h3⟩
  rw [← h3, List.take_left]

theorem c1_fifo_order_witness :
    ((freshMQ Nat 2).runOps [.send 5, .read, .send 6, .read]).got
      = ((freshMQ Nat 2).runOps [.send 5, .read, .send 6, .read]).sent.take
          ((freshMQ Nat 2).runOps [.send 5, .read, .send 6, .read]).got.length ∧
    ((freshMQ Nat 2).runOps [.send 5, .read, .send 6, .read]).got
        ++ ((freshMQ Nat 2).runOps [.send 5, .read, .send 6, .read]).q.pending
      = ((freshMQ Nat 2).runOps [.send 5, .read, .send 6, .read]).sent :=
  c1_fifo_order Nat 2 (freshMQ Nat 2) rfl [.send 5, .read, .send 6, .read]

/-- Claim C2: `send` fails with `MessageQueueFull` exactly when
`(write_index - read_index) mod capacity = capacity - 1`; on failure the
whole queue state is unchanged; and from a fresh queue of capacity `C` the
first `C - 1` sends all succeed while the `C`-th fails. -/
theorem c2_queue_full (α : Type) [Inhabited α] (q : MQ α) (v : α)
    (hInv : q.Inv) :
    (((q.send v).1 = .error .MessageQueueFull) ↔
      ((q.wptr : Int) - (q.rptr : Int)) % (q.len : Int) = (q.len : Int) - 1) ∧
    ((q.send v).1 = .error .MessageQueueFull → (q.send v).2 = q) ∧
    (∀ (C : Nat) (w : α), 2 ≤ C →
      ((freshMQ α C).runOps (List.replicate (C - 1) (.send w))).sent.length
          = C - 1 ∧
      ((((freshMQ α C).runOps (List.replicate (C - 1) (.send w))).q.send w).1
          = .error .MessageQueueFull)) := by
  have hd := q.dist_lt hInv
  have h1 : (q.send v).1 = .error .MessageQueueFull ↔ q.dist = q.len - 1 := by
    unfold MQ.send
    split
    · simpa using ‹q.dist = q.len - 1›
    · simp
      exact fun hh => absurd hh ‹¬q.dist = q.len - 1›
  refine ⟨?_, ?_, ?_⟩
  · rw [h1, int_dist q hInv]
    obtain ⟨hl, _, _⟩ := hInv
    omega
  · intro hfail
    have := h1.mp hfail
    rw [q.send_full v this]
  · intro C w hC
    have hfq : freshMQ α C = MQ.mk C 0 0 (fun _ => (default : α)) := rfl
    rw [hfq]
    obtain ⟨r1, r2, r3, r4⟩ :=
      runOps_replicate_send C hC w (C - 1) 0 (fun _ => default) (by omega)
    refine ⟨r4, ?_⟩
    have hdist :
        ((MQ.mk C 0 0 (fun _ => (default : α))).runOps
            (List.replicate (C - 1) (.send w))).q.dist = C - 1 := by
      rw [MQ.dist_def, r1, r2, r3]
      rw [if_neg (by omega)]
      omega
    have := MQ.send_full
      ((MQ.mk C 0 0 (fun _ => (default : α))).runOps
          (List.replicate (C - 1) (.send w))).q w
      (by rw [hdist, r3])
    rw [this]

theorem c2_queue_full_witness :
    ((MQ.mk 2 1 0 (fun _ => (0 : Nat))).send 0).1
        = .error .MessageQueueFull ∧
    ((freshMQ Nat 3).runOps (List.replicate 2 (.send 7))).sent.length = 2 ∧
    (((freshMQ Nat 3).runOps (List.replicate 2 (.send 7))).q.send 7).1
        = .error .MessageQueueFull := by
  have h := c2_queue_full Nat (MQ.mk 2 1 0 (fun _ => 0)) 0
    ⟨by decide, by decide, by decide⟩
  have h3 := h.2.2 3 7 (by omega)
  exact ⟨h.1.mpr (by decide), h3.1, h3.2⟩

/-- Claim C3: after any run with `N` successful sends and `M` successful
reads starting from a fresh queue of capacity `C`, `M ≤ N`, `available()`
returns exactly `N - M`, and `available()` never leaves `[0, C - 1]`. -/
theorem c3_available_count (α : Type) [Inhabited α] (C : Nat) (q₀ : MQ α)
    (h : MQnew α C = .ok q₀) (ops : List (MQOp α)) :
    (q₀.runOps ops).got.length ≤ (q₀.runOps ops).sent.length ∧
    (q₀.runOps ops).q.available
      = (q₀.runOps ops).sent.length - (q₀.runOps ops).got.length ∧
    (q₀.runOps ops).q.available ≤ C - 1 := by
  obtain ⟨hInv, hlen, hpend, _⟩ := MQnew_inv h
  have hlens := sent_length_le ops q₀ hInv hpend
  obtain ⟨hiF, hlenF, _⟩ := MQ.runOps_spec ops q₀ hInv
  have hplen := pending_length (q₀.runOps ops).q
  have hdlt := MQ.dist_lt _ hiF
  rw [hlenF, hlen] at hdlt
  unfold MQ.available
  omega

theorem c3_available_count_witness :
    ((freshMQ Nat 4).runOps [.send 1, .send 2, .read]).got.length
      ≤ ((freshMQ Nat 4).runOps [.send 1, .send 2, .read]).sent.length ∧
    ((freshMQ Nat 4).runOps [.send 1, .send 2, .read]).q.available
      = ((freshMQ Nat 4).runOps [.send 1, .send 2, .read]).sent.length
        - ((freshMQ Nat 4).runOps [.send 1, .send 2, .read]).got.length ∧
    ((freshMQ Nat 4).runOps [.send 1, .send 2, .read]).q.available ≤ 4 - 1 :=
  c3_available_count Nat 4 (freshMQ Nat 4) rfl [.send 1, .send 2, .read]

/-- Claim C9: whenever `available()` is `0`, `read()` returns `None` and the
whole queue state (both indices and every slot) is unchanged. -/
theorem c9_read_on_empty (α : Type) (q : MQ α) (h : q.available = 0) :
    q.read = (none, q) :=
  MQ.read_empty q h

theorem c9_read_on_empty_witness :
    (MQ.mk 3 2 2 (fun _ => (5 : Nat))).read
      = (none, MQ.mk 3 2 2 (fun _ => (5 : Nat))) :=
  c9_read_on_empty Nat (MQ.mk 3 2 2 (fun _ => 5)) rfl

end MsgQ

namespace PComb

/-- `InvalidStateError` from `src/lib/parser.rs` (80-84). -/
inductive InvalidStateError
  | EOF
  deriving DecidableEq, Repr

/-- `ParserError` from `src/lib/parser.rs` (86-93).  `UTFError`'s payload
(a UTF-8 decoding error) is dropped: the combinators never build one. -/
inductive ParserError
  | OutOfBoundsAccess
  | InvalidState (e : InvalidStateError)
  | InvalidData
  | Overflow
  | UTFError
  deriving DecidableEq, Repr

/-- The `if let ParserError::InvalidState(_) = e` test of
`TryOr::evaluate` (src/lib/parser.rs:146). -/
def ParserError.isInvalidState : ParserError → Bool
  | .InvalidState _ => true
  | _ => false

/-- Output values of the evaluators: borrowed byte slices, `Combine`
pairs, `OneOf` injections and `Match`'s boolean. -/
inductive PVal
  | bytes (bs : List Nat)
  | pair (a b : PVal)
  | first (a : PVal)
  | second (a : PVal)
  | bool (b : Bool)
  deriving DecidableEq, Repr

/-- Deep syntax of the combinators of `src/lib/parser.rs`: `ReaderUntil`,
`Peeker`, `ConsumerToEnd`, `Consumer`, `Combine`, `TryOr` and `Match`. -/
inductive PExpr
  | readUntil (endPattern : List Nat)
  | peeker (n : Nat)
  | consumerToEnd
  | consumer (predicate : List Nat → Except ParserError Nat)
  | combine (a b : PExpr)
  | tryOr (a b : PExpr)
  | matcher (pattern : List Nat)

/-- Loop of `ReaderUntil::evaluate` (src/lib/parser.rs:175-188).  The fuel
is exactly `string.length + 1 - pos`, so fuel `0` coincides with the
positions `pos > string.length` at which the Rust slice expression
`&string[pos..]` panics; `none` models that panic. -/
def readerUntilGo (endPattern s : List Nat) (oldPos : Nat) :
    Nat → Nat → Option (List Nat × Nat)
  | _, 0 => none
  | pos, fuel + 1 =>
    if endPattern.isPrefixOf (s.drop pos) then
      some ((s.drop oldPos).take (pos - oldPos), pos)
    else if pos + 1 = s.length then
      some ((s.drop oldPos).take (pos + 1 - oldPos), pos + 1)
    else
      readerUntilGo endPattern s oldPos (pos + 1) fuel

/-- Loop of `Consumer::evaluate` (src/lib/parser.rs:227-240).  `none`
models the panic of `&string[pos+delta..]` when `pos + delta` exceeds the
input length. -/
def consumerLoop (predicate : List Nat → Except ParserError Nat)
    (s : List Nat) (pos : Nat) (delta : Nat) :
    Option (Except ParserError Nat) :=
  if _h : pos + delta ≤ s.length then
    match predicate (s.drop (pos + delta)) with
    | .error e => some (.error e)
    | .ok 0 => some (.ok delta)
    | .ok (offset + 1) => consumerLoop predicate s pos (delta + (offset + 1))
  else none
termination_by s.length + 1 - (pos + delta)
decreasing_by omega

/-- `evaluate` of every combinator (src/lib/parser.rs), on the shared
input `s` and cursor `pos`.  The result is the returned `Result` paired
with the post-call cursor (Rust mutates `state.pos` in place; a parser
that fails before touching the cursor leaves it as it was).  `none` models
a panic. -/
def evalP : PExpr → List Nat → Nat → Option (Except ParserError PVal × Nat)
  | .readUntil pat, s, pos =>
    match readerUntilGo pat s pos pos (s.length + 1 - pos) with
    | none => none
    | some (bs, pos1) => some (.ok (.bytes bs), pos1)
  | .peeker n, s, pos =>
    -- ParserState::get_n / index_size (src/lib/parser.rs:54-66,72-74);
    -- on Nat the checked_add can not overflow, so no Overflow here
    if pos + n > s.length then some (.error .OutOfBoundsAccess, pos)
    else some (.ok (.bytes ((s.drop pos).take n)), pos + n)
  | .consumerToEnd, s, pos =>
    -- string.len() - state.pos underflows (debug panic) when pos > len
    if pos ≤ s.length then some (.ok (.bytes (s.drop pos)), s.length)
    else none
  | .consumer pred, s, pos =>
    match consumerLoop pred s pos 0 with
    | none => none
    | some (.error e) => some (.error e, pos)
    | some (.ok delta) =>
      some (.ok (.bytes ((s.drop pos).take delta)), pos + delta)
  | .combine a b, s, pos =>
    match evalP a s pos with
    | none => none
    | some (.error e, pos1) => some (.error e, pos1)
    | some (.ok va, pos1) =>
      match evalP b s pos1 with
      | none => none
      | some (.error e, pos2) => some (.error e, pos2)
      | some (.ok vb, pos2) => some (.ok (.pair va vb), pos2)
  | .tryOr a b, s, pos =>
    match evalP a s pos with
    | none => none
    | some (.ok va, pos1) => some (.ok (.first va), pos1)
    | some (.error e, pos1) =>
      if e.isInvalidState then some (.error e, pos1)
      else
        -- the source keeps the cursor wherever `a` left it: no rollback
        match evalP b s pos1 with
        | none => none
        | some (.error e2, pos2) => some (.error e2, pos2)
        | some (.ok vb, pos2) => some (.ok (.second vb), pos2)
  | .matcher pat, s, pos =>
    if pos ≤ s.length then
      if s.length - pos < pat.length then
        some (.error (.InvalidState .EOF), pos)
      else
        some (.ok (.bool ((((s.drop pos).take pat.length).zip pat).all
          fun p => p.1 == p.2)), pos)
    else none

/-- Modelled from the spec: `TryOr(a, b)` with the rollback §4.3 demands —
on a data error from `a` the cursor is restored to its pre-`a` value and
`b` runs from there; invalid-state errors propagate without trying `b`. -/
def evalTryOrSpec (a b : PExpr) (s : List Nat) (pos : Nat) :
    Option (Except ParserError PVal × Nat) :=
  match evalP a s pos with
  | none => none
  | some (.ok va, pos1) => some (.ok (.first va), pos1)
  | some (.error e, pos1) =>
    if e.isInvalidState then some (.error e, pos1)
    else
      match evalP b s pos with
      | none => none
      | some (.error e2, pos2) => some (.error e2, pos2)
      | some (.ok vb, pos2) => some (.ok (.second vb), pos2)

/-- Did the evaluation return `Ok`? -/
def isOkRes (r : Option (Except ParserError PVal × Nat)) : Bool :=
  match r with
  | some (.ok _, _) => true
  | _ => false

instance : DecidableEq (Except ParserError PVal) := fun a b =>
  match a, b with
  | .ok x, .ok y => decidable_of_iff (x = y) (by simp)
  | .error x, .error y => decidable_of_iff (x = y) (by simp)
  | .ok _, .error _ => isFalse (by simp)
  | .error _, .ok _ => isFalse (by simp)

/-- Claim C5 counterexample: with `a = Combine(Peeker 1, Peeker 5)` and
`b = Peeker 1` on input `[7, 8]`, `a` consumes one byte and then fails with
a data error, and the source's `TryOr` runs `b` from cursor 1 (yielding
`[8]`, final cursor 2) instead of the rolled-back cursor 0 the claim
requires (which would yield `[7]`, final cursor 1). -/
theorem c5_rollback_cex :
    evalP (.tryOr (.combine (.peeker 1) (.peeker 5)) (.peeker 1)) [7, 8] 0
        = some (.ok (.second (.bytes [8])), 2) ∧
    evalTryOrSpec (.combine (.peeker 1) (.peeker 5)) (.peeker 1) [7, 8] 0
        = some (.ok (.second (.bytes [7])), 1) ∧
    evalP (.tryOr (.combine (.peeker 1) (.peeker 5)) (.peeker 1)) [7, 8] 0
        ≠ evalTryOrSpec (.combine (.peeker 1) (.peeker 5)) (.peeker 1)
            [7, 8] 0 := by
  refine ⟨by decide, by decide, by decide⟩

/-- Claim C5 (amended): when `a` fails with a data error the cursor is NOT
restored — `b` is evaluated from wherever `a` left the cursor; when `a`
fails with an invalid-state error, that error (and `a`'s final cursor) is
propagated and `b` is never evaluated. -/
theorem c5_tryOr_no_rollback (a b : PExpr) (s : List Nat) (pos pos1 : Nat)
    (e : ParserError) (ha : evalP a s pos = some (.error e, pos1)) :
    (e.isInvalidState = true →
      evalP (.tryOr a b) s pos = some (.error e, pos1)) ∧
    (e.isInvalidState = false →
      evalP (.tryOr a b) s pos
        = (evalP b s pos1).map fun r => (r.1.map PVal.second, r.2)) := by
  constructor
  · intro hinv
    simp [evalP, ha, hinv]
  · intro hinv
    rcases hb : evalP b s pos1 with _ | ⟨r, pos2⟩
    · simp [evalP, ha, hinv, hb]
    · rcases r with e2 | vb
      · simp [evalP, ha, hinv, hb, Except.map]
      · simp [evalP, ha, hinv, hb, Except.map]

theorem c5_tryOr_no_rollback_witness :
    evalP (.tryOr (.combine (.peeker 1) (.peeker 5)) (.peeker 1)) [7, 8] 0
      = (evalP (.peeker 1) [7, 8] 1).map fun r => (r.1.map PVal.second, r.2) :=
  (c5_tryOr_no_rollback (.combine (.peeker 1) (.peeker 5)) (.peeker 1)
    [7, 8] 0 1 .OutOfBoundsAccess (by decide)).2 (by decide)

/-- Claim C8: `Peeker(n)` then `Peeker(m)` succeeds exactly when
`Peeker(n + m)` succeeds from the same start; on success, the two returned
slices concatenate to the slice of `Peeker(n + m)` and the final cursors
agree. -/
theorem c8_peeker_split (s : List Nat) (pos n m : Nat) :
    ((isOkRes (evalP (.combine (.peeker n) (.peeker m)) s pos) = true) ↔
      (isOkRes (evalP (.peeker (n + m)) s pos) = true)) ∧
    (∀ a b p c q2,
      evalP (.combine (.peeker n) (.peeker m)) s pos
          = some (.ok (.pair (.bytes a) (.bytes b)), p) →
      evalP (.peeker (n + m)) s pos = some (.ok (.bytes c), q2) →
      a ++ b = c ∧ p = q2) := by
  by_cases h2 : pos + n + m ≤ s.length
  · have hc : evalP (.combine (.peeker n) (.peeker m)) s pos
        = some (.ok (.pair (.bytes ((s.drop pos).take n))
            (.bytes ((s.drop (pos + n)).take m))), pos + n + m) := by
      simp only [evalP]
      rw [if_neg (show ¬ s.length < pos + n from by omega)]
      dsimp only
      rw [if_neg (show ¬ s.length < pos + n + m from by omega)]
    have hbig : evalP (.peeker (n + m)) s pos
        = some (.ok (.bytes ((s.drop pos).take (n + m))), pos + (n + m)) := by
      simp only [evalP]
      rw [if_neg (by omega)]
    constructor
    · simp [isOkRes, hc, hbig]
    · intro a b p c q2 hab hcc
      rw [hc] at hab
      rw [hbig] at hcc
      simp only [Option.some.injEq, Prod.mk.injEq, Except.ok.injEq,
        PVal.pair.injEq, PVal.bytes.injEq] at hab hcc
      obtain ⟨⟨ha, hb⟩, hp⟩ := hab
      obtain ⟨hcv, hq⟩ := hcc
      subst ha hb hcv
      refine ⟨?_, by omega⟩
      rw [List.take_add, List.drop_drop]
  · by_cases h1 : pos + n ≤ s.length
    · have hc : evalP (.combine (.peeker n) (.peeker m)) s pos
          = some (.error .OutOfBoundsAccess, pos + n) := by
        simp only [evalP]
        rw [if_neg (show ¬ s.length < pos + n from by omega)]
        dsimp only
        rw [if_pos (show s.length < pos + n + m from by omega)]
      have hbig : evalP (.peeker (n + m)) s pos
          = some (.error .OutOfBoundsAccess, pos) := by
        simp only [evalP]
        rw [if_pos (by omega)]
      constructor
      · simp [isOkRes, hc, hbig]
      · intro a b p c q2 hab _
        rw [hc] at hab
        exact absurd hab (by simp)
    · have hc : evalP (.combine (.peeker n) (.peeker m)) s pos
          = some (.error .OutOfBoundsAccess, pos) := by
        simp only [evalP]
        rw [if_pos (show s.length < pos + n from by omega)]
      have hbig : evalP (.peeker (n + m)) s pos
          = some (.error .OutOfBoundsAccess, pos) := by
        simp only [evalP]
        rw [if_pos (by omega)]
      constructor
      · simp [isOkRes, hc, hbig]
      · intro a b p c q2 hab _
        rw [hc] at hab
        exact absurd hab (by simp)

theorem c8_peeker_split_witness :
    ([1] : List Nat) ++ [2, 3] = [1, 2, 3] ∧ 3 = 3 :=
  (c8_peeker_split [1, 2, 3] 0 1 2).2 [1] [2, 3] 3 [1, 2, 3] 3
    (by decide) (by decide)

/-- Behaviour of the `ReaderUntil` scan loop when it starts strictly before
the end of the input and the pattern is non-empty: it stops at the first
position at or after the start whose suffix begins with the pattern, or at
the end of input when there is none, and returns the bytes in between. -/
lemma readerUntilGo_spec (p s : List Nat) (oldPos : Nat) :
    ∀ fuel pos, pos < s.length → fuel = s.length + 1 - pos →
      ∃ pos1, readerUntilGo p s oldPos pos fuel
          = some ((s.drop oldPos).take (pos1 - oldPos), pos1) ∧
        pos ≤ pos1 ∧ pos1 ≤ s.length ∧
        (∀ j, pos ≤ j → j < pos1 → ¬ p.isPrefixOf (s.drop j) = true) ∧
        (pos1 = s.length ∨ p.isPrefixOf (s.drop pos1) = true) := by
  intro fuel
  induction fuel with
  | zero => intro pos hpos hfuel; omega
  | succ fuel ih =>
    intro pos hpos hfuel
    by_cases hpre : p.isPrefixOf (s.drop pos) = true
    · exact ⟨pos, by simp [readerUntilGo, hpre], Nat.le_refl _, by omega,
        fun j h1 h2 => by omega, Or.inr hpre⟩
    · by_cases hend : pos + 1 = s.length
      · refine ⟨pos + 1, by simp [readerUntilGo, hpre, hend], by omega,
          by omega, ?_, Or.inl hend⟩
        intro j h1 h2
        have hj : j = pos := by omega
        rw [hj]
        exact hpre
      · obtain ⟨pos1, hrun, hge, hle, hnone, hlast⟩ :=
          ih (pos + 1) (by omega) (by omega)
        refine ⟨pos1, ?_, by omega, hle, ?_, hlast⟩
        · rw [show readerUntilGo p s oldPos pos (fuel + 1)
              = readerUntilGo p s oldPos (pos + 1) fuel by
            simp [readerUntilGo, hpre, hend]]
          exact hrun
        · intro j h1 h2
          rcases Nat.eq_or_lt_of_le h1 with hj | hj
          · rw [← hj]
            exact hpre
          · exact hnone j (by omega) h2

/-- Claim C10: a successful `ReaderUntil(p)` run starting strictly before
the end of input (`p` non-empty) leaves the cursor either at the end of
the input or at the first position at or after the start whose suffix
begins with `p` — so the pattern is not consumed and, when it was found,
the bytes at the final cursor still start with `p`. -/
theorem c10_readUntil_stops_at_pattern (p s : List Nat) (pos : Nat)
    (hp : p ≠ []) (hpos : pos < s.length) :
    ∃ pos1,
      evalP (.readUntil p) s pos
        = some (.ok (.bytes ((s.drop pos).take (pos1 - pos))), pos1) ∧
      pos ≤ pos1 ∧ pos1 ≤ s.length ∧
      (∀ j, pos ≤ j → j < pos1 → ¬ p.isPrefixOf (s.drop j) = true) ∧
      (pos1 = s.length ∨ p.isPrefixOf (s.drop pos1) = true) := by
  obtain ⟨pos1, hrun, h2, h3, h4, h5⟩ :=
    readerUntilGo_spec p s pos (s.length + 1 - pos) pos hpos rfl
  exact ⟨pos1, by simp [evalP, hrun], h2, h3, h4, h5⟩

theorem c10_readUntil_stops_at_pattern_witness :
    ∃ pos1,
      evalP (.readUntil [10]) [5, 10, 6] 0
        = some (.ok (.bytes (([5, 10, 6].drop 0).take (pos1 - 0))), pos1) ∧
      0 ≤ pos1 ∧ pos1 ≤ [5, 10, 6].length ∧
      (∀ j, 0 ≤ j → j < pos1 → ¬ [10].isPrefixOf ([5, 10, 6].drop j) = true) ∧
      (pos1 = [5, 10, 6].length ∨ [10].isPrefixOf ([5, 10, 6].drop pos1) = true) :=
  c10_readUntil_stops_at_pattern [10] [5, 10, 6] 0 (by decide) (by decide)

end PComb

namespace Http

/-- `ParserError` from `src/http.rs` (48-54); the `UTFError` payload is
dropped (never produced along the paths modelled here). -/
inductive ParserError
  | EOF
  | InvalidData
  | UTFError
  deriving DecidableEq, Repr

/-- `HTTPVerb` from `src/http.rs` (5-15). -/
inductive HTTPVerb
  | GET
  | POST
  | PUT
  | HEAD
  | DELETE
  | OPTIONS
  | TRACE
  | CONNECT
  deriving DecidableEq, Repr

/-- `HTTPVerb::parse_from_utf8` (src/http.rs:17-31); byte-for-byte match
of `GET`, `POST`, `PUT`, `HEAD`, `DELETE`, `OPTIONS`, `TRACE`, `CONNECT`. -/
def parseFromUtf8 (verb : List Nat) : Option HTTPVerb :=
  if verb = [71, 69, 84] then some .GET
  else if verb = [80, 79, 83, 84] then some .POST
  else if verb = [80, 85, 84] then some .PUT
  else if verb = [72, 69, 65, 68] then some .HEAD
  else if verb = [68, 69, 76, 69, 84, 69] then some .DELETE
  else if verb = [79, 80, 84, 73, 79, 78, 83] then some .OPTIONS
  else if verb = [84, 82, 65, 67, 69] then some .TRACE
  else if verb = [67, 79, 78, 78, 69, 67, 84] then some .CONNECT
  else none

/-- Loop of `Parser::advance_until_any` (src/http.rs:64-73).  The fuel is
exactly `s.length + 1 - pos`, so fuel `0` coincides with the out-of-bounds
index `s[pos]` for `pos > s.length` (a panic, modelled as `none`). -/
def advanceUntilAnyGo (cmp s : List Nat) : Nat → Nat → Option (Except ParserError Nat)
  | pos, 0 => if pos = s.length then some (.ok pos) else none
  | pos, fuel + 1 =>
    if pos = s.length then some (.ok pos)
    else if cmp.contains (s.getD pos 0) then
      if pos + 1 = s.length then some (.error .EOF)
      else advanceUntilAnyGo cmp s (pos + 1) fuel
    else some (.ok pos)

/-- `Parser::advance_until_any` starting at cursor `pos`. -/
def advanceUntilAny (cmp s : List Nat) (pos : Nat) : Option (Except ParserError Nat) :=
  advanceUntilAnyGo cmp s pos (s.length + 1 - pos)

/-- Loop of `Parser::get_until` (src/http.rs:77-90), same fuel discipline:
`none` models the panic of `&string[pos..]` once `pos` exceeds the input
length (which the source reaches from `pos = s.length`, since its EOF test
runs only *after* the increment). -/
def getUntilGo (cmp s : List Nat) (oldPos : Nat) : Nat → Nat → Option (Except ParserError (List Nat × Nat))
  | _, 0 => none
  | pos, fuel + 1 =>
    if cmp.isPrefixOf (s.drop pos) then
      some (.ok ((s.drop oldPos).take (pos - oldPos), pos + cmp.length))
    else if pos + 1 = s.length then some (.error .EOF)
    else getUntilGo cmp s oldPos (pos + 1) fuel

/-- `Parser::get_until` starting at cursor `pos`: returns the bytes before
the first match of `cmp` and the cursor moved past that match. -/
def getUntil (cmp s : List Nat) (pos : Nat) : Option (Except ParserError (List Nat × Nat)) :=
  getUntilGo cmp s pos pos (s.length + 1 - pos)

/-- The header-line colon scan `for i in 1..header.len()-1` of
`HttpQuery::from_string` (src/http.rs:124-130).  `0` means "not found".
Fuel `header.length` dominates the iteration count, so exhaustion returns
what the guard would: `0`. -/
def findColonAux (header : List Nat) : Nat → Nat → Nat
  | _, 0 => 0
  | i, fuel + 1 =>
    if i < header.length - 1 then
      if header.getD i 0 = 58 then i
      else findColonAux header (i + 1) fuel
    else 0

/-- Position of the first `b':'` the source's scan finds (it starts at 1
and stops *before* the last byte of the line). -/
def findColon (header : List Nat) : Nat := findColonAux header 1 header.length

/-- The per-header-line step of `HttpQuery::from_string`
(src/http.rs:124-137): split at the found colon, or `InvalidData`. -/
def splitHeader (header : List Nat) : Except ParserError (List Nat × List Nat) :=
  if findColon header = 0 then .error .InvalidData
  else .ok (header.take (findColon header), header.drop (findColon header + 1))

/-- The header loop of `HttpQuery::from_string` (src/http.rs:118-138).
Headers are collected as the list of `insert`ed pairs in order.  Each
surviving iteration moves the cursor forward by at least 3, so the fuel
`s.length + 2` supplied by `fromString` can never run out; fuel `0` is
unreachable and returns the panic marker. -/
def headersGo (s : List Nat) : Nat → List (List Nat × List Nat) → Nat → Option (Except ParserError (List (List Nat × List Nat) × Nat))
  | _, _, 0 => none
  | pos, acc, fuel + 1 =>
    match getUntil [13, 10] s pos with
    | none => none
    | some (.error e) => some (.error e)
    | some (.ok (header, pos1)) =>
      if header.length = 0 then some (.ok (acc, pos1))
      else
        match splitHeader header with
        | .error e => some (.error e)
        | .ok nv => headersGo s pos1 (acc ++ [nv]) fuel

/-- `HttpQuery` (src/http.rs:34-41) with byte-range fields. -/
structure HttpQuery where
  verb : HTTPVerb
  url : List Nat
  headers : List (List Nat × List Nat)
  body : List Nat
  deriving DecidableEq, Repr

/-- `HttpQuery::from_string` (src/http.rs:98-146): skip leading CR/LF,
verb up to a space (unknown verbs default to `GET`), URL up to a space,
the literal `HTTP/1.1` up to CRLF, the header loop, then the rest as
body. -/
def fromString (s : List Nat) : Option (Except ParserError HttpQuery) :=
  match advanceUntilAny [13, 10] s 0 with
  | none => none
  | some (.error e) => some (.error e)
  | some (.ok pos0) =>
    match getUntil [32] s pos0 with
    | none => none
    | some (.error e) => some (.error e)
    | some (.ok (verbBytes, pos1)) =>
      match getUntil [32] s pos1 with
      | none => none
      | some (.error e) => some (.error e)
      | some (.ok (url, pos2)) =>
        match getUntil [13, 10] s pos2 with
        | none => none
        | some (.error e) => some (.error e)
        | some (.ok (version, pos3)) =>
          if version ≠ [72, 84, 84, 80, 47, 49, 46, 49] then
            some (.error .InvalidData)
          else
            match headersGo s pos3 [] (s.length + 2) with
            | none => none
            | some (.error e) => some (.error e)
            | some (.ok (headers, pos4)) =>
              some (.ok {
                verb := (parseFromUtf8 verbBytes).getD .GET,
                url := url,
                headers := headers,
                body := s.drop pos4 })

/-- Sanity check against scenario 1/2 of the spec and the repository's own
benchmark input `"\r\n\r\nGET /lol17 HTTP/1.1\r\ntype: lol\r\n\r\nHi"`. -/
lemma fromString_base_query :
    fromString [13, 10, 13, 10, 71, 69, 84, 32, 47, 108, 111, 108, 49, 55,
        32, 72, 84, 84, 80, 47, 49, 46, 49, 13, 10, 116, 121, 112, 101, 58,
        32, 108, 111, 108, 13, 10, 13, 10, 72, 105]
      = some (.ok {
          verb := .GET,
          url := [47, 108, 111, 108, 49, 55],
          headers := [([116, 121, 112, 101], [32, 108, 111, 108])],
          body := [72, 105] }) := rfl

/-- Claim C4: the parsers do NOT always stay in bounds.  `ReaderUntil` run
with the cursor already at the end of the input walks the cursor past the
end and indexes `string[len+1..]` (a panic, `none` in the model), and
`HttpQuery::from_string` panics the same way on the empty input and on
`"GET / HTTP/1.1\r\n"` (a request whose bytes end right after the
request line), instead of returning a `ParserError`. -/
theorem c4_parser_out_of_bounds :
    PComb.evalP (.readUntil [13, 10]) [] 0 = none ∧
    fromString [] = none ∧
    fromString [71, 69, 84, 32, 47, 32, 72, 84, 84, 80, 47, 49, 46, 49, 13, 10]
      = none :=
  ⟨rfl, rfl, rfl⟩

/-- Claim C6 counterexample: the header line `"a:"` carries a `':'` at
position `1 > 0`, yet the decoder rejects it with `InvalidData` (both at
the line-splitting step and end-to-end on
`"GET / HTTP/1.1\r\na:\r\n\r\n"`): the scan `for i in 1..header.len()-1`
never examines the last byte of the line. -/
theorem c6_colon_at_line_end_cex :
    ([97, 58] : List Nat).getD 1 0 = 58 ∧
    splitHeader [97, 58] = .error .InvalidData ∧
    fromString [71, 69, 84, 32, 47, 32, 72, 84, 84, 80, 47, 49, 46, 49, 13,
        10, 97, 58, 13, 10, 13, 10]
      = some (.error .InvalidData) :=
  ⟨rfl, rfl, rfl⟩

/-- What the colon scan computes: the least colon position in
`[i, header.length - 1)`, or `0` when there is none. -/
lemma findColonAux_spec (header : List Nat) :
    ∀ fuel i, header.length ≤ fuel + i →
      (findColonAux header i fuel = 0 ∧
        ∀ j, i ≤ j → j < header.length - 1 → header.getD j 0 ≠ 58) ∨
      (i ≤ findColonAux header i fuel ∧
        findColonAux header i fuel < header.length - 1 ∧
        header.getD (findColonAux header i fuel) 0 = 58 ∧
        ∀ j, i ≤ j → j < findColonAux header i fuel →
          header.getD j 0 ≠ 58) := by
  intro fuel
  induction fuel with
  | zero =>
    intro i hi
    exact Or.inl ⟨rfl, fun j hj1 hj2 => absurd hj2 (by omega)⟩
  | succ fuel ih =>
    intro i hi
    by_cases hlt : i < header.length - 1
    · by_cases hcol : header.getD i 0 = 58
      · have hres : findColonAux header i (fuel + 1) = i := by
          show (if i < header.length - 1 then
            if header.getD i 0 = 58 then i
            else findColonAux header (i + 1) fuel else 0) = i
          rw [if_pos hlt, if_pos hcol]
        rw [hres]
        exact Or.inr ⟨Nat.le_refl i, hlt, hcol,
          fun j h1 h2 => absurd h2 (by omega)⟩
      · have hres : findColonAux header i (fuel + 1)
            = findColonAux header (i + 1) fuel := by
          show (if i < header.length - 1 then
            if header.getD i 0 = 58 then i
            else findColonAux header (i + 1) fuel else 0)
            = findColonAux header (i + 1) fuel
          rw [if_pos hlt, if_neg hcol]
        rw [hres]
        rcases ih (i + 1) (by omega) with ⟨h0, hall⟩ | ⟨h1, hlt2, h3, h4⟩
        · refine Or.inl ⟨h0, fun j hj1 hj2 => ?_⟩
          rcases Nat.eq_or_lt_of_le hj1 with hj | hj
          · rw [← hj]; exact hcol
          · exact hall j (by omega) hj2
        · refine Or.inr ⟨by omega, hlt2, h3, fun j hj1 hj2 => ?_⟩
          rcases Nat.eq_or_lt_of_le hj1 with hj | hj
          · rw [← hj]; exact hcol
          · exact h4 j (by omega) hj2
    · have hres : findColonAux header i (fuel + 1) = 0 := by
        show (if i < header.length - 1 then
          if header.getD i 0 = 58 then i
          else findColonAux header (i + 1) fuel else 0) = 0
        rw [if_neg hlt]
      exact Or.inl ⟨hres, fun j hj1 hj2 => absurd hj2 (by omega)⟩

/-- Claim C6 (amended): a header line is split at the first `':'` whose
position lies in `[1, length - 2]` — i.e. the colon may be neither the
first nor the LAST byte of the line — and fails with `InvalidData` exactly
when no colon occurs at such a position. -/
theorem c6_header_split (header : List Nat) :
    (splitHeader header = .error .InvalidData ↔
      ∀ i, 0 < i → i < header.length - 1 → header.getD i 0 ≠ 58) ∧
    (∀ nv, splitHeader header = .ok nv →
      ∃ i, 0 < i ∧ i < header.length - 1 ∧ header.getD i 0 = 58 ∧
        (∀ j, 0 < j → j < i → header.getD j 0 ≠ 58) ∧
        nv = (header.take i, header.drop (i + 1))) := by
  rcases findColonAux_spec header header.length 1 (by omega) with
    ⟨h0, hnone⟩ | ⟨hge, hlt, hcol, hmin⟩
  · have hf : findColon header = 0 := h0
    constructor
    · constructor
      · intro _ i hi1 hi2
        exact hnone i hi1 hi2
      · intro _
        simp [splitHeader, hf]
    · intro nv hnv
      simp [splitHeader, hf] at hnv
  · have hge1 : 1 ≤ findColon header := hge
    have hlt1 : findColon header < header.length - 1 := hlt
    have hcol1 : header.getD (findColon header) 0 = 58 := hcol
    have hmin1 : ∀ j, 1 ≤ j → j < findColon header →
        header.getD j 0 ≠ 58 := hmin
    have hf : findColon header ≠ 0 := by omega
    constructor
    · constructor
      · intro herr
        simp [splitHeader, hf] at herr
      · intro hall
        exact absurd hcol1 (hall (findColon header) (by omega) hlt1)
    · intro nv hnv
      refine ⟨findColon header, by omega, hlt1, hcol1,
        fun j hj1 hj2 => hmin1 j (by omega) hj2, ?_⟩
      simp [splitHeader, hf] at hnv
      exact hnv.symm

theorem c6_header_split_witness :
    ∃ i, 0 < i ∧ i < ([97, 58, 98] : List Nat).length - 1 ∧
      ([97, 58, 98] : List Nat).getD i 0 = 58 ∧
      (∀ j, 0 < j → j < i → ([97, 58, 98] : List Nat).getD j 0 ≠ 58) ∧
      (([97], [98]) : List Nat × List Nat)
        = ([97, 58, 98].take i, [97, 58, 98].drop (i + 1)) :=
  (c6_header_split [97, 58, 98]).2 ([97], [98]) rfl

/-- Claim C7: each of the eight recognised byte sequences maps to its
verb; any other verb token does not fail but degrades to `GET` (shown both
on the table lookup composed with `unwrap_or(GET)` exactly as the decoder
uses it, and end-to-end on `"FROBNICATE / HTTP/1.1\r\n\r\n"`). -/
theorem c7_unknown_verb_defaults_to_get (v : List Nat)
    (hv : v ∉ [[71, 69, 84], [80, 79, 83, 84], [80, 85, 84],
      [72, 69, 65, 68], [68, 69, 76, 69, 84, 69],
      [79, 80, 84, 73, 79, 78, 83], [84, 82, 65, 67, 69],
      [67, 79, 78, 78, 69, 67, 84]]) :
    (parseFromUtf8 v).getD .GET = .GET ∧
    parseFromUtf8 [71, 69, 84] = some .GET ∧
    parseFromUtf8 [80, 79, 83, 84] = some .POST ∧
    parseFromUtf8 [80, 85, 84] = some .PUT ∧
    parseFromUtf8 [72, 69, 65, 68] = some .HEAD ∧
    parseFromUtf8 [68, 69, 76, 69, 84, 69] = some .DELETE ∧
    parseFromUtf8 [79, 80, 84, 73, 79, 78, 83] = some .OPTIONS ∧
    parseFromUtf8 [84, 82, 65, 67, 69] = some .TRACE ∧
    parseFromUtf8 [67, 79, 78, 78, 69, 67, 84] = some .CONNECT ∧
    fromString [70, 82, 79, 66, 78, 73, 67, 65, 84, 69, 32, 47, 32,
        72, 84, 84, 80, 47, 49, 46, 49, 13, 10, 13, 10]
      = some (.ok { verb := .GET, url := [47], headers := [], body := [] }) := by
  simp only [List.mem_cons, not_or] at hv
  obtain ⟨n1, n2, n3, n4, n5, n6, n7, n8, -⟩ := hv
  exact ⟨by simp [parseFromUtf8, n1, n2, n3, n4, n5, n6, n7, n8],
    rfl, rfl, rfl, rfl, rfl, rfl, rfl, rfl, rfl⟩

theorem c7_unknown_verb_defaults_to_get_witness :
    (parseFromUtf8 [70, 82, 79, 66]).getD .GET = .GET ∧
    parseFromUtf8 [71, 69, 84] = some .GET ∧
    parseFromUtf8 [80, 79, 83, 84] = some .POST ∧
    parseFromUtf8 [80, 85, 84] = some .PUT ∧
    parseFromUtf8 [72, 69, 65, 68] = some .HEAD ∧
    parseFromUtf8 [68, 69, 76, 69, 84, 69] = some .DELETE ∧
    parseFromUtf8 [79, 80, 84, 73, 79, 78, 83] = some .OPTIONS ∧
    parseFromUtf8 [84, 82, 65, 67, 69] = some .TRACE ∧
    parseFromUtf8 [67, 79, 78, 78, 69, 67, 84] = some .CONNECT ∧
    fromString [70, 82, 79, 66, 78, 73, 67, 65, 84, 69, 32, 47, 32,
        72, 84, 84, 80, 47, 49, 46, 49, 13, 10, 13, 10]
      = some (.ok { verb := .GET, url := [47], headers := [], body := [] }) :=
  c7_unknown_verb_defaults_to_get [70, 82, 79, 66] (by decide)

end Http
